import Mathlib

/-!
Shallow embedding of the Solignition off-chain deployer service
(`DeployerOrchestrator`, `BinaryManager`, `ProgramDeployer`, the
instruction builders and the level-db backed `StateManager`).

Bytes are modelled as `List Nat` (each entry a byte value), strings as
`String`, lamport amounts as `Nat`, and the JS floating-point SOL
amounts as `ℚ` (exact arithmetic; the claims settled here do not hinge
on float rounding).  The level-db store is an association list keyed by
`loanId`; `put` overwrites in place.  External effects (the chain RPC,
the filesystem, timers) are injected as explicit environments, and each
operation additionally returns a trace of observable events (record
saves, backoff sleeps, deployment attempts, chain calls).
-/

namespace Solignition

/-- Status values of a `DeploymentRecord`
(source: `DeploymentRecord.status` union type). -/
inductive Status where
  | pending
  | deploying
  | deployed
  | recovering
  | recovered
  | failed
deriving DecidableEq, Repr

/-- The per-loan deployment record persisted in the level-db store
(source: interface `DeploymentRecord`).  Optional fields of the
TypeScript interface become `Option`. -/
structure DeploymentRecord where
  loanId : String
  borrower : String
  programId : Option String := none
  bufferAccount : Option String := none
  deployTxSignature : Option String := none
  setDeployedTxSignature : Option String := none
  recoveryTxSignature : Option String := none
  status : Status
  error : Option String := none
  createdAt : Nat
  updatedAt : Nat
  binaryHash : Option String := none
  principal : String
deriving DecidableEq, Repr

/-- The deployment-record portion of the level-db store: an association
list from `loanId` to the stored record (`db.put` with key
`deployment:loanId` is an upsert on that key). -/
abbrev DB := List (String × DeploymentRecord)

/-- `StateManager.getDeployment`: lookup by loanId; a missing key yields
the absent case. -/
def getDeployment (db : DB) (loanId : String) : Option DeploymentRecord :=
  (List.find? (fun p => p.1 = loanId) db).map (fun p => p.2)

/-- `StateManager.saveDeployment`: `db.put` keyed by `record.loanId` —
overwrite the entry at that key, or create it. -/
def saveDeployment : DB → DeploymentRecord → DB
  | [], r => [(r.loanId, r)]
  | p :: rest, r =>
    if p.1 = r.loanId then (r.loanId, r) :: rest
    else p :: saveDeployment rest r

/-- Number of stored deployment records for a given loanId. -/
def countFor (db : DB) (loanId : String) : Nat :=
  (List.filter (fun p => p.1 = loanId) db).length

/-- Result of `BinaryManager.validateBinary`. -/
structure ValidationResult where
  valid : Bool
  reason : Option String := none
deriving DecidableEq, Repr

/-- The fixed ELF magic `[0x7f, 0x45, 0x4c, 0x46]`
(source: `const elfMagic = Buffer.from([0x7f, 0x45, 0x4c, 0x46])`). -/
def elfMagic : List Nat := [0x7f, 0x45, 0x4c, 0x46]

/-- `BinaryManager.validateBinary`: reject empty input, then a wrong
four-byte header (`binaryData.subarray(0, 4)` of a shorter buffer is the
whole buffer, which never equals the four-byte magic), then inputs
larger than `100 * 1024 * 1024` bytes. -/
def validateBinary (binaryData : List Nat) : ValidationResult :=
  if binaryData.length = 0 then
    { valid := false, reason := some "Empty binary" }
  else if ¬ (binaryData.take 4 = elfMagic) then
    { valid := false, reason := some "Invalid ELF header" }
  else if binaryData.length > 100 * 1024 * 1024 then
    { valid := false, reason := some "Binary too large (>100MB)" }
  else
    { valid := true }

/-- One buffer-write instruction produced by
`createWriteBufferInstructions`: the chunk's byte offset (tagged into
the instruction data as a 32-bit integer) and the chunk itself
(`data.slice(offset, min(offset + chunkSize, data.length))`). -/
structure WriteInstr where
  offset : Nat
  chunk : List Nat
deriving DecidableEq, Repr

/-- The chunk size used by `createWriteBufferInstructions`
(source: `const chunkSize = 900`). -/
def chunkSize : Nat := 900

/-- Loop body of `createWriteBufferInstructions`:
`for (let offset = 0; offset < data.length; offset += chunkSize)`.
The loop advances `offset` by `chunkSize ≥ 1` each iteration, so a
structural fuel of `data.length` iterations is always sufficient. -/
def writeBufferGo (data : List Nat) : Nat → Nat → List WriteInstr
  | 0, _ => []
  | fuel + 1, offset =>
    if offset < data.length then
      { offset := offset, chunk := (data.drop offset).take chunkSize }
        :: writeBufferGo data fuel (offset + chunkSize)
    else
      []

/-- `createWriteBufferInstructions` (the account keys and instruction
tag bytes are constants and are elided). -/
def createWriteBufferInstructions (data : List Nat) : List WriteInstr :=
  writeBufferGo data data.length 0

/-! ### SHA-256

Modelled from the spec: the content hash of `BinaryManager.storeBinary`
is computed by Node's `crypto` library
(`createHash('sha256').update(binaryData).digest('hex')`), which is not
part of this repository; the spec fixes it as SHA-256, hex-encoded.
The FIPS 180-4 algorithm is reproduced here over `List Nat` bytes, with
32-bit words as `Nat` reduced `% 2 ^ 32`. -/

/-- 32-bit truncating addition. -/
def add32 (a b : Nat) : Nat := (a + b) % 4294967296

/-- Right rotation of a 32-bit word. -/
def rotr32 (n x : Nat) : Nat :=
  (x / 2 ^ n + x % 2 ^ n * 2 ^ (32 - n)) % 4294967296

/-- Bitwise complement of a 32-bit word. -/
def compl32 (x : Nat) : Nat := Nat.xor x 4294967295

/-- SHA-256 round constants (decimal values of the FIPS 180-4 table). -/
def sha256K : List Nat :=
  [1116352408, 1899447441, 3049323471, 3921009573, 961987163,
   1508970993, 2453635748, 2870763221, 3624381080, 310598401,
   607225278, 1426881987, 1925078388, 2162078206, 2614888103,
   3248222580, 3835390401, 4022224774, 264347078, 604807628,
   770255983, 1249150122, 1555081692, 1996064986, 2554220882,
   2821834349, 2952996808, 3210313671, 3336571891, 3584528711,
   113926993, 338241895, 666307205, 773529912, 1294757372,
   1396182291, 1695183700, 1986661051, 2177026350, 2456956037,
   2730485921, 2820302411, 3259730800, 3345764771, 3516065817,
   3600352804, 4094571909, 275423344, 430227734, 506948616,
   659060556, 883997877, 958139571, 1322822218, 1537002063,
   1747873779, 1955562222, 2024104815, 2227730452, 2361852424,
   2428436474, 2756734187, 3204031479, 3329325298]

/-- SHA-256 initial hash value (decimal values of the FIPS 180-4 table). -/
def sha256H0 : List Nat :=
  [1779033703, 3144134277, 1013904242, 2773480762,
   1359893119, 2600822924, 528734635, 1541459225]

/-- Pad a byte message per FIPS 180-4: append `0x80`, zeros, then the
bit length as eight big-endian bytes, to a multiple of 64 bytes. -/
def sha256Pad (msg : List Nat) : List Nat :=
  let len := msg.length
  let zeros := (64 - ((len + 9) % 64)) % 64
  let bitLen := len * 8
  msg ++ [0x80] ++ List.replicate zeros 0 ++
    [bitLen / 2 ^ 56 % 256, bitLen / 2 ^ 48 % 256, bitLen / 2 ^ 40 % 256,
     bitLen / 2 ^ 32 % 256, bitLen / 2 ^ 24 % 256, bitLen / 2 ^ 16 % 256,
     bitLen / 2 ^ 8 % 256, bitLen % 256]

/-- Split a padded message into 64-byte blocks (each step drops 64
bytes of a non-empty list, so `msg.length` iterations suffice as
structural fuel). -/
def sha256BlocksGo : Nat → List Nat → List (List Nat)
  | 0, _ => []
  | fuel + 1, msg =>
    if msg.length = 0 then []
    else msg.take 64 :: sha256BlocksGo fuel (msg.drop 64)

/-- Split a padded message into 64-byte blocks. -/
def sha256Blocks (msg : List Nat) : List (List Nat) :=
  sha256BlocksGo msg.length msg

/-- Big-endian 32-bit words of a 64-byte block. -/
def blockWords (block : List Nat) : List Nat :=
  (List.range 16).map fun i =>
    (block.getD (4 * i) 0) * 2 ^ 24 + (block.getD (4 * i + 1) 0) * 2 ^ 16 +
      (block.getD (4 * i + 2) 0) * 2 ^ 8 + block.getD (4 * i + 3) 0

/-- Message-schedule extension step. -/
def scheduleStep (w : Array Nat) (i : Nat) : Array Nat :=
  let w15 := w.getD (i - 15) 0
  let w2 := w.getD (i - 2) 0
  let s0 := Nat.xor (Nat.xor (rotr32 7 w15) (rotr32 18 w15)) (w15 / 2 ^ 3)
  let s1 := Nat.xor (Nat.xor (rotr32 17 w2) (rotr32 19 w2)) (w2 / 2 ^ 10)
  w.push (add32 (add32 (w.getD (i - 16) 0) s0) (add32 (w.getD (i - 7) 0) s1))

/-- The 64-entry message schedule of a block. -/
def sha256Schedule (block : List Nat) : Array Nat :=
  (List.range 48).foldl (fun w j => scheduleStep w (16 + j)) (blockWords block).toArray

/-- One round of the SHA-256 compression function. -/
def sha256Round (w : Array Nat) (st : List Nat) (i : Nat) : List Nat :=
  match st with
  | [a, b, c, d, e, f, g, h] =>
    let s1 := Nat.xor (Nat.xor (rotr32 6 e) (rotr32 11 e)) (rotr32 25 e)
    let ch := Nat.xor (Nat.land e f) (Nat.land (compl32 e) g)
    let temp1 := add32 (add32 (add32 h s1) (add32 ch (sha256K.getD i 0))) (w.getD i 0)
    let s0 := Nat.xor (Nat.xor (rotr32 2 a) (rotr32 13 a)) (rotr32 22 a)
    let maj := Nat.xor (Nat.xor (Nat.land a b) (Nat.land a c)) (Nat.land b c)
    let temp2 := add32 s0 maj
    [add32 temp1 temp2, a, b, c, add32 d temp1, e, f, g]
  | st => st

/-- Process one 64-byte block: 64 rounds then add to the running hash. -/
def sha256Compress (hsh : List Nat) (block : List Nat) : List Nat :=
  let w := sha256Schedule block
  let st := (List.range 64).foldl (sha256Round w) hsh
  List.zipWith add32 hsh st

/-- One byte as two lowercase hex characters. -/
def byteToHex (b : Nat) : List Char :=
  let hexDigit := fun (d : Nat) =>
    if d < 10 then Char.ofNat (48 + d) else Char.ofNat (87 + d)
  [hexDigit (b / 16 % 16), hexDigit (b % 16)]

/-- A 32-bit word as eight lowercase hex characters. -/
def wordToHex (x : Nat) : List Char :=
  byteToHex (x / 2 ^ 24 % 256) ++ byteToHex (x / 2 ^ 16 % 256) ++
    byteToHex (x / 2 ^ 8 % 256) ++ byteToHex (x % 256)

/-- SHA-256 of a byte list, hex-encoded
(`createHash('sha256').update(bytes).digest('hex')`). -/
def sha256hex (msg : List Nat) : String :=
  let final := (sha256Blocks (sha256Pad msg)).foldl sha256Compress sha256H0
  String.mk (final.foldr (fun w acc => wordToHex w ++ acc) [])

/-! ### Binary store -/

/-- The filesystem under `binaryStoragePath`, as a map from file path
to contents (`fs.writeFile` overwrites and does not error in this
model, mirroring its success behaviour). -/
def FS := String → Option (List Nat)

/-- `fs.writeFile`: overwrite the file at `filePath` or create it. -/
def writeFile (fs : FS) (filePath : String) (contents : List Nat) : FS :=
  fun q => if q = filePath then some contents else fs q

/-- `fs.readFile` (as used by `BinaryManager.getBinary`). -/
def readFile (fs : FS) (filePath : String) : Option (List Nat) :=
  fs filePath

/-- `BinaryManager.storeBinary`: hash the bytes with SHA-256 (hex),
write them to `` `${loanId}_${hash}.so` `` under the storage path
(elided constant prefix), and return the hash.  Returns
(hash, file path, filesystem after the write). -/
def storeBinary (fs : FS) (loanId : String) (binaryData : List Nat) :
    String × String × FS :=
  let hash := sha256hex binaryData
  let filePath := loanId ++ "_" ++ hash ++ ".so"
  (hash, filePath, writeFile fs filePath binaryData)

/-! ### Orchestrator -/

/-- A JavaScript exception value as it reaches a `catch` block.  Every
throw site feeding the orchestrator throws an `Error` object, whose
`String(error)` conversion is `"Error: " ++ message`. -/
structure JsError where
  message : String
deriving DecidableEq, Repr

/-- `String(error)` applied to a caught `Error` object. -/
def jsString (e : JsError) : String := "Error: " ++ e.message

/-- Orchestrator configuration fields used by the claims
(source: `DeployerConfig` / `config`). -/
structure Config where
  maxRetries : Nat
  retryDelayMs : Nat
deriving DecidableEq, Repr

/-- Outcomes of the external dependencies consumed by one deployment
attempt (`processDeployment`): the abstract binary fetch, the
`fs.writeFile` inside `storeBinary`, `ProgramDeployer.deployProgram`
(programId, bufferAccount, signature on success) and
`ProgramDeployer.setDeployedProgram` (its transaction signature). -/
structure AttemptEnv where
  fetchBinary : Except JsError (List Nat)
  storeWrite : Except JsError Unit
  deployProgram : Except JsError (String × String × String)
  setDeployedProgram : Except JsError String
deriving Repr

/-- Observable events of an orchestrator operation: a persisted record
write, a backoff sleep (milliseconds), the start of a deployment
attempt, and the two recovery-path chain calls. -/
inductive Event where
  | save (r : DeploymentRecord)
  | sleep (ms : Nat)
  | attempt
  | closeCall (programId : String)
  | returnSolCall (amount : ℚ)
deriving DecidableEq, Repr

/-- Event-trace count of deployment attempts. -/
def attemptCount (tr : List Event) : Nat :=
  (tr.filter (fun e => e matches .attempt)).length

/-- Event-trace list of backoff sleep durations, in order. -/
def sleeps (tr : List Event) : List Nat :=
  tr.filterMap (fun e => match e with | .sleep ms => some ms | _ => none)

/-- `DeployerOrchestrator.processDeployment`: persist `deploying`, fetch
the binary, validate it (throwing on an invalid result), store it and
record `binaryHash`, deploy, record the deploy outputs, register the
program on-chain, then persist `deployed`.  Returns the attempt's
result, the db, the (mutated in place, as in JS) record, and the event
trace of the attempt. -/
def processDeployment (env : AttemptEnv) (now : Nat) (db : DB)
    (d : DeploymentRecord) :
    Except JsError Unit × DB × DeploymentRecord × List Event :=
  let d1 := { d with status := Status.deploying, updatedAt := now }
  let db1 := saveDeployment db d1
  let tr1 : List Event := [Event.attempt, Event.save d1]
  match env.fetchBinary with
  | .error e => (.error e, db1, d1, tr1)
  | .ok binaryData =>
    let validation := validateBinary binaryData
    if validation.valid = false then
      (.error ⟨"Binary validation failed: " ++ validation.reason.getD "undefined"⟩,
        db1, d1, tr1)
    else
      match env.storeWrite with
      | .error e => (.error e, db1, d1, tr1)
      | .ok _ =>
        -- `storeBinary` returns the SHA-256 hex of the bytes; its
        -- filesystem write is the `storeWrite` effect above.
        let binaryHash := sha256hex binaryData
        let d2 := { d1 with binaryHash := some binaryHash }
        match env.deployProgram with
        | .error e => (.error e, db1, d2, tr1)
        | .ok (programId, bufferAccount, signature) =>
          let d3 := { d2 with
            programId := some programId,
            bufferAccount := some bufferAccount,
            deployTxSignature := some signature }
          match env.setDeployedProgram with
          | .error e => (.error e, db1, d3, tr1)
          | .ok setTx =>
            let d4 := { d3 with
              setDeployedTxSignature := some setTx,
              status := Status.deployed,
              updatedAt := now }
            (.ok (), saveDeployment db1 d4, d4, tr1 ++ [Event.save d4])

/-- The attempt's success-or-failure outcome as a function of the
dependency environment alone (the result component of
`processDeployment` does not depend on the db or the record). -/
def attemptResult (env : AttemptEnv) : Except JsError Unit :=
  match env.fetchBinary with
  | .error e => .error e
  | .ok binaryData =>
    let validation := validateBinary binaryData
    if validation.valid = false then
      .error ⟨"Binary validation failed: " ++ validation.reason.getD "undefined"⟩
    else
      match env.storeWrite with
      | .error e => .error e
      | .ok _ =>
        match env.deployProgram with
        | .error e => .error e
        | .ok _ =>
          match env.setDeployedProgram with
          | .error e => .error e
          | .ok _ => .ok ()

/-- The `while (attempts < config.maxRetries)` loop of
`DeployerOrchestrator.processDeploymentWithRetries`, with the loop
counter `attempts` explicit and structural fuel
`fuel = maxRetries - attempts` (the loop re-entry condition
`attempts < maxRetries` is exactly `fuel > 0`).  `env i` gives the
dependency outcomes of the attempt made when the counter reads `i`. -/
def retryGo (cfg : Config) (env : Nat → AttemptEnv) (now : Nat) :
    Nat → Nat → DB → DeploymentRecord → DB × DeploymentRecord × List Event
  | 0, _, db, d => (db, d, [])
  | fuel + 1, attempts, db, d =>
    match processDeployment (env attempts) now db d with
    | (.ok _, db', d', tr') => (db', d', tr')
    | (.error e, db', d', tr') =>
      let attempts' := attempts + 1
      if attempts' ≥ cfg.maxRetries then
        let df := { d' with status := Status.failed, error := some (jsString e) }
        (saveDeployment db' df, df, tr' ++ [Event.save df])
      else
        let rest := retryGo cfg env now fuel attempts' db' d'
        (rest.1, rest.2.1,
          tr' ++ [Event.sleep (cfg.retryDelayMs * 2 ^ (attempts' - 1))] ++ rest.2.2)

/-- `DeployerOrchestrator.processDeploymentWithRetries`. -/
def processDeploymentWithRetries (cfg : Config) (env : Nat → AttemptEnv)
    (now : Nat) (db : DB) (d : DeploymentRecord) :
    DB × DeploymentRecord × List Event :=
  retryGo cfg env now cfg.maxRetries 0 db d

/-- A normalized `loanRequested` event as emitted by the
`EventMonitor` (the fields the orchestrator reads). -/
structure LoanRequestedEv where
  loanId : String
  borrower : String
  principal : String
deriving DecidableEq, Repr

/-- The non-guard tail of `DeployerOrchestrator.handleLoanRequested`:
create a fresh `pending` record, persist it, and run the retry loop. -/
def startDeployment (cfg : Config) (env : Nat → AttemptEnv) (now : Nat)
    (ev : LoanRequestedEv) (db : DB) : DB × List Event :=
  let d : DeploymentRecord :=
    { loanId := ev.loanId, borrower := ev.borrower, principal := ev.principal,
      status := Status.pending, createdAt := now, updatedAt := now }
  let db1 := saveDeployment db d
  let res := processDeploymentWithRetries cfg env now db1 d
  (res.1, Event.save d :: res.2.2)

/-- `DeployerOrchestrator.handleLoanRequested`: the idempotency guard
(`if (deployment && deployment.status !== 'failed') return;`) followed
by record creation and the retry loop. -/
def handleLoanRequested (cfg : Config) (env : Nat → AttemptEnv) (now : Nat)
    (ev : LoanRequestedEv) (db : DB) : DB × List Event :=
  match getDeployment db ev.loanId with
  | some d₀ =>
    if d₀.status ≠ Status.failed then (db, [])
    else startDeployment cfg env now ev db
  | none => startDeployment cfg env now ev db

/-- Outcomes of the external dependencies consumed by the recovery path
(`processRecovery`): `ProgramDeployer.closeProgram` (the `reclaimedSol`
amount, in SOL, and the closing transaction signature) and
`ProgramDeployer.returnReclaimedSol` (its transaction signature). -/
structure RecoveryEnv where
  closeProgram : Except JsError (ℚ × String)
  returnReclaimedSol : Except JsError String

/-- `DeployerOrchestrator.processRecovery`: guard on an existing record
with status exactly `deployed`; persist `recovering`; if a `programId`
is recorded, close the program, return the reclaimed amount to the
vault, and persist `recovered` with the closing signature; any thrown
error is caught, persisted as `failed`. -/
def processRecovery (renv : RecoveryEnv) (now : Nat) (loanId : String)
    (db : DB) : DB × List Event :=
  match getDeployment db loanId with
  | none => (db, [])
  | some d =>
    if d.status ≠ Status.deployed then (db, [])
    else
      let d1 := { d with status := Status.recovering, updatedAt := now }
      let db1 := saveDeployment db d1
      match d1.programId with
      | none => (db1, [Event.save d1])
      | some pid =>
        match renv.closeProgram with
        | .error e =>
          let df := { d1 with status := Status.failed, error := some (jsString e) }
          (saveDeployment db1 df, [Event.save d1, Event.closeCall pid, Event.save df])
        | .ok (reclaimedSol, signature) =>
          match renv.returnReclaimedSol with
          | .error e =>
            let df := { d1 with status := Status.failed, error := some (jsString e) }
            (saveDeployment db1 df,
              [Event.save d1, Event.closeCall pid, Event.returnSolCall reclaimedSol,
                Event.save df])
          | .ok _returnTx =>
            let d2 := { d1 with
              recoveryTxSignature := some signature,
              status := Status.recovered,
              updatedAt := now }
            (saveDeployment db1 d2,
              [Event.save d1, Event.closeCall pid, Event.returnSolCall reclaimedSol,
                Event.save d2])

/-! ### The recovery chain-amount path -/

/-- `LAMPORTS_PER_SOL`. -/
def LAMPORTS_PER_SOL : ℚ := 1000000000

/-- `ProgramDeployer.closeProgram`, amount computation: after the close
transaction confirms, the deployer PDA's balance is read and divided by
`LAMPORTS_PER_SOL`; that quotient is returned as `reclaimedSol`.
Modelled from the spec: the chain semantics of the close instruction
(not part of src/) credit the closed program-data account's lamports to
the recipient, here the deployer PDA, so the post-close balance is
`pdaLamportsBefore + closedAccountLamports`.  Arithmetic is exact
(`ℚ`) rather than IEEE floating point. -/
def closeProgramReclaimedSol (pdaLamportsBefore closedAccountLamports : Nat) : ℚ :=
  ((pdaLamportsBefore : ℚ) + (closedAccountLamports : ℚ)) / LAMPORTS_PER_SOL

/-- `ProgramDeployer.returnReclaimedSol`, amount computation:
`new anchor.BN(amount * LAMPORTS_PER_SOL)` — the lamport amount passed
to the on-chain return-reclaimed-balance instruction. -/
def returnReclaimedSolLamports (amount : ℚ) : ℚ :=
  amount * LAMPORTS_PER_SOL

/-- The lamport amount the recovery path passes to the on-chain
"return reclaimed balance to vault" instruction, as a function of the
deployer PDA's pre-close balance and the closed account's balance
(`processRecovery` feeds `closeProgram`'s `reclaimedSol` straight into
`returnReclaimedSol`). -/
def recoveryReturnedLamports (pdaLamportsBefore closedAccountLamports : Nat) : ℚ :=
  returnReclaimedSolLamports (closeProgramReclaimedSol pdaLamportsBefore closedAccountLamports)

/-! ### Record and store invariants -/

/-- The record-level invariant of claim C5: a `deployed` record carries
a `programId` and both deploy-path signatures; a `recovered` record
carries a `recoveryTxSignature`. -/
def recordOk (r : DeploymentRecord) : Prop :=
  (r.status = Status.deployed →
    r.programId.isSome ∧ r.deployTxSignature.isSome ∧ r.setDeployedTxSignature.isSome) ∧
  (r.status = Status.recovered → r.recoveryTxSignature.isSome)

/-- Every record persisted in the store satisfies `recordOk`. -/
def dbOk (db : DB) : Prop := ∀ p ∈ db, recordOk p.2

/-! ### Concrete instances (used by the witnesses) -/

/-- A dependency environment in which every call succeeds and the
fetched binary is a minimal valid ELF payload. -/
def envOkW : AttemptEnv :=
  { fetchBinary := .ok elfMagic
    storeWrite := .ok ()
    deployProgram := .ok ("Prog1", "Buf1", "Sig1")
    setDeployedProgram := .ok "SetSig1" }

/-- A dependency environment whose binary fetch always throws. -/
def envFailW : AttemptEnv :=
  { fetchBinary := .error ⟨"fetch refused"⟩
    storeWrite := .ok ()
    deployProgram := .ok ("Prog1", "Buf1", "Sig1")
    setDeployedProgram := .ok "SetSig1" }

/-- Attempt environments failing twice, then succeeding. -/
def envFailTwiceW : Nat → AttemptEnv :=
  fun i => if i < 2 then envFailW else envOkW

/-- A configuration with the default `maxRetries = 3` and base delay
`5000`ms. -/
def cfgW : Config := { maxRetries := 3, retryDelayMs := 5000 }

/-- A concrete `loanRequested` event. -/
def evW : LoanRequestedEv :=
  { loanId := "1", borrower := "Borrower1", principal := "5000000000" }

/-- A concrete pending record for the retry-loop witnesses. -/
def recPendingW : DeploymentRecord :=
  { loanId := "1", borrower := "Borrower1", principal := "5000000000",
    status := Status.pending, createdAt := 0, updatedAt := 0 }

/-- A concrete failed record (recovery-guard witness). -/
def recFailedW : DeploymentRecord :=
  { loanId := "9", borrower := "Borrower9", principal := "7",
    status := Status.failed, createdAt := 0, updatedAt := 0 }

/-- A concrete `deployed` record with no recorded `programId`
(C10 witness). -/
def recNoPidW : DeploymentRecord :=
  { loanId := "7", borrower := "Borrower7", principal := "3",
    status := Status.deployed,
    deployTxSignature := some "s1", setDeployedTxSignature := some "s2",
    createdAt := 0, updatedAt := 0 }

/-- A recovery environment in which both chain calls succeed. -/
def renvW : RecoveryEnv :=
  { closeProgram := .ok ((3 : ℚ), "CloseSig")
    returnReclaimedSol := .ok "ReturnSig" }

/-! ## Theorems -/

/-- C7: `validateBinary` rejects the empty input with "Empty binary";
rejects any non-empty input whose first four bytes are not
`0x7F 0x45 0x4C 0x46` (including inputs shorter than four bytes) with
"Invalid ELF header"; rejects inputs with a valid header larger than
104,857,600 bytes with the "Binary too large" reason; and accepts
everything else — with first-match-wins ordering empty → header →
size. -/
theorem validateBinary_spec (bytes : List Nat) :
    (bytes = [] → validateBinary bytes = ⟨false, some "Empty binary"⟩) ∧
    (bytes ≠ [] → bytes.take 4 ≠ elfMagic →
      validateBinary bytes = ⟨false, some "Invalid ELF header"⟩) ∧
    (bytes.take 4 = elfMagic → bytes.length > 104857600 →
      validateBinary bytes = ⟨false, some "Binary too large (>100MB)"⟩) ∧
    (bytes.take 4 = elfMagic → bytes.length ≤ 104857600 →
      validateBinary bytes = ⟨true, none⟩) := by
  have hmag : bytes.take 4 = elfMagic → bytes.length ≠ 0 := by
    intro h hlen
    rw [List.length_eq_zero] at hlen
    subst hlen
    simp [elfMagic] at h
  refine ⟨?_, ?_, ?_, ?_⟩
  · intro h; subst h; rfl
  · intro hne hhd
    have hlen : bytes.length ≠ 0 := by
      simpa [List.length_eq_zero] using hne
    simp [validateBinary, hlen, hhd]
  · intro hhd hsz
    have hlen := hmag hhd
    simp [validateBinary, hlen, hhd]
    omega
  · intro hhd hsz
    have hlen := hmag hhd
    simp [validateBinary, hlen, hhd]
    omega

/-- C7 witness: concrete evaluations through `validateBinary_spec`. -/
theorem validateBinary_spec_witness :
    validateBinary [] = ⟨false, some "Empty binary"⟩ ∧
    validateBinary [0, 1, 2, 3, 4, 5, 6, 7, 8, 9] =
      ⟨false, some "Invalid ELF header"⟩ ∧
    validateBinary [0x7f] = ⟨false, some "Invalid ELF header"⟩ ∧
    validateBinary (elfMagic ++ List.replicate 104857597 0) =
      ⟨false, some "Binary too large (>100MB)"⟩ ∧
    validateBinary [0x7f, 0x45, 0x4c, 0x46, 0] = ⟨true, none⟩ :=
  ⟨(validateBinary_spec []).1 rfl,
   (validateBinary_spec _).2.1 (by decide) (by decide),
   (validateBinary_spec _).2.1 (by decide) (by decide),
   (validateBinary_spec _).2.2.1
     (by rw [show (4 : Nat) = elfMagic.length from rfl, List.take_left])
     (by rw [List.length_append, List.length_replicate]; norm_num [elfMagic]),
   (validateBinary_spec _).2.2.2 (by decide) (by decide)⟩

/-- C8: `storeBinary` returns the SHA-256 hex digest of exactly the
given bytes, writes the payload under the key derived from
`(loanId, hash)`, and a second store of identical bytes for the same
loan returns the same hash, writes to the same destination and leaves
the store unchanged (no error: `storeBinary` is total here, as
`fs.writeFile` overwrites). -/
theorem storeBinary_content_addressing (fs : FS) (loanId : String)
    (bytes : List Nat) :
    (storeBinary fs loanId bytes).1 = sha256hex bytes ∧
    (storeBinary fs loanId bytes).2.1 =
      loanId ++ "_" ++ sha256hex bytes ++ ".so" ∧
    readFile (storeBinary fs loanId bytes).2.2
      (loanId ++ "_" ++ sha256hex bytes ++ ".so") = some bytes ∧
    (storeBinary (storeBinary fs loanId bytes).2.2 loanId bytes).1 =
      (storeBinary fs loanId bytes).1 ∧
    (storeBinary (storeBinary fs loanId bytes).2.2 loanId bytes).2.1 =
      (storeBinary fs loanId bytes).2.1 ∧
    (storeBinary (storeBinary fs loanId bytes).2.2 loanId bytes).2.2 =
      (storeBinary fs loanId bytes).2.2 := by
  refine ⟨rfl, rfl, ?_, rfl, rfl, ?_⟩
  · simp [storeBinary, readFile, writeFile]
  · funext q
    by_cases hq : q = loanId ++ "_" ++ sha256hex bytes ++ ".so" <;>
      simp [storeBinary, writeFile, hq]

/-- Closed form of the chunking loop: starting at `offset` with enough
fuel, it produces one instruction per 900-byte slice of the remainder. -/
theorem writeBufferGo_eq (data : List Nat) :
    ∀ (fuel offset : Nat), data.length ≤ offset + fuel →
    writeBufferGo data fuel offset =
      (List.range ((data.length - offset + 899) / 900)).map
        (fun i => ⟨offset + 900 * i, (data.drop (offset + 900 * i)).take 900⟩) := by
  intro fuel
  induction fuel with
  | zero =>
    intro offset hf
    have h0 : data.length - offset = 0 := by omega
    simp [writeBufferGo, h0]
  | succ fuel ih =>
    intro offset hf
    rw [writeBufferGo]
    simp only [chunkSize]
    split
    case isTrue h =>
      rw [ih (offset + 900) (by omega)]
      have hk : (data.length - offset + 899) / 900 =
          (data.length - (offset + 900) + 899) / 900 + 1 := by
        omega
      rw [hk, List.range_succ_eq_map, List.map_cons, List.map_map]
      simp
      intro a _
      have hx : offset + 900 + 900 * a = offset + 900 * (a + 1) := by ring
      exact ⟨hx, by rw [hx]⟩
    case isFalse h =>
      have h0 : data.length - offset = 0 := by omega
      simp [h0]

/-- The chunks of the chunking loop concatenate to the remainder of the
input past `offset`. -/
theorem writeBufferGo_join (data : List Nat) :
    ∀ (fuel offset : Nat), data.length ≤ offset + fuel →
    ((writeBufferGo data fuel offset).map (fun w => w.chunk)).flatten =
      data.drop offset := by
  intro fuel
  induction fuel with
  | zero =>
    intro offset hf
    rw [writeBufferGo, List.drop_eq_nil_of_le (by omega)]
    rfl
  | succ fuel ih =>
    intro offset hf
    rw [writeBufferGo]
    split
    case isTrue h =>
      rw [List.map_cons, List.flatten_cons,
        ih (offset + chunkSize) (by simp [chunkSize] at *; omega)]
      have hdd : data.drop (offset + chunkSize) = (data.drop offset).drop chunkSize := by
        rw [List.drop_drop, Nat.add_comm]
      rw [hdd]
      exact List.take_append_drop chunkSize (data.drop offset)
    case isFalse h =>
      rw [List.drop_eq_nil_of_le (by omega)]
      rfl

/-- C9: for a non-empty binary, `createWriteBufferInstructions`
produces `⌈len / 900⌉` instructions, each chunk at most 900 bytes, with
offsets `0, 900, 1800, …` in order, and the chunks concatenate, in
order, to exactly the input binary. -/
theorem createWriteBufferInstructions_spec (data : List Nat)
    (_hne : data ≠ []) :
    (createWriteBufferInstructions data).length = (data.length + 899) / 900 ∧
    (∀ ins ∈ createWriteBufferInstructions data, ins.chunk.length ≤ 900) ∧
    (createWriteBufferInstructions data).map (fun w => w.offset) =
      (List.range ((data.length + 899) / 900)).map (fun i => 900 * i) ∧
    ((createWriteBufferInstructions data).map (fun w => w.chunk)).flatten = data := by
  have hchar := writeBufferGo_eq data data.length 0 (by omega)
  refine ⟨?_, ?_, ?_, ?_⟩
  · rw [createWriteBufferInstructions, hchar]
    simp
  · intro ins hins
    rw [createWriteBufferInstructions, hchar] at hins
    simp at hins
    obtain ⟨i, _, hi⟩ := hins
    rw [← hi]
    exact List.length_take_le 900 _
  · rw [createWriteBufferInstructions, hchar, List.map_map]
    simp
  · have := writeBufferGo_join data data.length 0 (by omega)
    simpa [createWriteBufferInstructions] using this

/-- C9 witness: `createWriteBufferInstructions_spec` applied to a
concrete 1000-byte binary (two chunks). -/
theorem createWriteBufferInstructions_spec_witness :
    ((createWriteBufferInstructions (List.replicate 1000 7)).map
      (fun w => w.chunk)).flatten = List.replicate 1000 7 ∧
    (createWriteBufferInstructions (List.replicate 1000 7)).length =
      (1000 + 899) / 900 :=
  ⟨(createWriteBufferInstructions_spec (List.replicate 1000 7)
      (List.replicate_succ_ne_nil 999 7)).2.2.2,
   by
    rw [(createWriteBufferInstructions_spec (List.replicate 1000 7)
      (List.replicate_succ_ne_nil 999 7)).1, List.length_replicate]⟩

/-- C6 counterexample: if the deployer PDA (the intermediary) holds
2 SOL before the close and the closed program reclaims 1 SOL, the
amount handed to the "return reclaimed balance to vault" instruction
is 3 SOL (the PDA's entire post-close balance), not the 1 SOL increase
— so the claimed equality fails at a non-zero initial balance. -/
theorem recoveryReturnedLamports_counterexample :
    recoveryReturnedLamports 2000000000 1000000000 ≠ (1000000000 : ℚ) := by
  norm_num [recoveryReturnedLamports, returnReclaimedSolLamports,
    closeProgramReclaimedSol, LAMPORTS_PER_SOL]

/-- C6 amended: the amount passed to the "return reclaimed balance to
vault" instruction equals the intermediary's entire post-closure
balance (its initial balance plus the reclaimed increase); it equals
the reclaimed increase precisely when the intermediary's initial
balance is zero. -/
theorem recoveryReturnedLamports_spec (pdaBefore closed : Nat) :
    recoveryReturnedLamports pdaBefore closed =
      (pdaBefore : ℚ) + (closed : ℚ) ∧
    (recoveryReturnedLamports pdaBefore closed = (closed : ℚ) ↔ pdaBefore = 0) := by
  have hL : (LAMPORTS_PER_SOL : ℚ) ≠ 0 := by norm_num [LAMPORTS_PER_SOL]
  have hval : recoveryReturnedLamports pdaBefore closed =
      (pdaBefore : ℚ) + (closed : ℚ) := by
    rw [recoveryReturnedLamports, returnReclaimedSolLamports,
      closeProgramReclaimedSol, div_mul_cancel₀ _ hL]
  refine ⟨hval, ?_⟩
  rw [hval]
  constructor
  · intro h
    have : (pdaBefore : ℚ) = 0 := by linarith
    exact_mod_cast this
  · intro h
    subst h
    simp

/-! ### Store lemmas -/

/-- Lookup on a non-empty store. -/
theorem getDeployment_cons (p : String × DeploymentRecord) (l : DB)
    (lid : String) :
    getDeployment (p :: l) lid =
      if p.1 = lid then some p.2 else getDeployment l lid := by
  by_cases hp : p.1 = lid <;> simp [getDeployment, List.find?_cons, hp]

/-- Record count on a non-empty store. -/
theorem countFor_cons (p : String × DeploymentRecord) (l : DB)
    (lid : String) :
    countFor (p :: l) lid =
      if p.1 = lid then countFor l lid + 1 else countFor l lid := by
  by_cases hp : p.1 = lid <;> simp [countFor, List.filter_cons, hp]

/-- After `put`, the written key maps to the written record. -/
theorem getDeployment_save_self (db : DB) (r : DeploymentRecord) :
    getDeployment (saveDeployment db r) r.loanId = some r := by
  induction db with
  | nil => simp [saveDeployment, getDeployment]
  | cons p rest ih =>
    by_cases hp : p.1 = r.loanId
    · rw [saveDeployment, if_pos hp, getDeployment_cons, if_pos rfl]
    · rw [saveDeployment, if_neg hp, getDeployment_cons, if_neg hp]
      exact ih

/-- `getDeployment_save_self`, phrased through the looked-up key. -/
theorem getDeployment_save_self_key (db : DB) (r : DeploymentRecord)
    (lid : String) (hlid : r.loanId = lid) :
    getDeployment (saveDeployment db r) lid = some r :=
  hlid ▸ getDeployment_save_self db r

/-- An absent key has no stored records. -/
theorem countFor_eq_zero_of_none (db : DB) (lid : String)
    (h : getDeployment db lid = none) : countFor db lid = 0 := by
  induction db with
  | nil => rfl
  | cons p rest ih =>
    rw [getDeployment_cons] at h
    rw [countFor_cons]
    by_cases hp : p.1 = lid
    · rw [if_pos hp] at h
      cases h
    · rw [if_neg hp] at h ⊢
      exact ih h

/-- `put` creates the key when absent and otherwise keeps the number of
records stored under it. -/
theorem countFor_save (db : DB) (r : DeploymentRecord) :
    countFor (saveDeployment db r) r.loanId =
      if countFor db r.loanId = 0 then 1 else countFor db r.loanId := by
  induction db with
  | nil => simp [saveDeployment, countFor]
  | cons p rest ih =>
    by_cases hp : p.1 = r.loanId
    · rw [saveDeployment, if_pos hp, countFor_cons, if_pos rfl,
        countFor_cons, if_pos hp, if_neg (by omega)]
    · rw [saveDeployment, if_neg hp, countFor_cons, if_neg hp,
        countFor_cons, if_neg hp]
      exact ih

/-- A key with a stored record resolves to some record. -/
theorem getDeployment_isSome_of_countFor (db : DB) (lid : String)
    (h : countFor db lid ≠ 0) : ∃ r, getDeployment db lid = some r := by
  induction db with
  | nil => simp [countFor] at h
  | cons p rest ih =>
    rw [countFor_cons] at h
    rw [getDeployment_cons]
    by_cases hp : p.1 = lid
    · exact ⟨p.2, by rw [if_pos hp]⟩
    · rw [if_neg hp] at h ⊢
      exact ih h

/-- `put` of a record satisfying the C5 record invariant preserves the
store invariant. -/
theorem dbOk_save (db : DB) (r : DeploymentRecord) (hdb : dbOk db)
    (hr : recordOk r) : dbOk (saveDeployment db r) := by
  induction db with
  | nil =>
    intro p hp
    simp [saveDeployment] at hp
    simp [hp, hr]
  | cons q rest ih =>
    by_cases hq : q.1 = r.loanId
    · intro p hp
      rw [saveDeployment, if_pos hq] at hp
      rcases List.mem_cons.mp hp with hp | hp
      · simp [hp, hr]
      · exact hdb p (List.mem_cons_of_mem q hp)
    · intro p hp
      rw [saveDeployment, if_neg hq] at hp
      rcases List.mem_cons.mp hp with hp | hp
      · exact hdb p (hp ▸ List.mem_cons_self q rest)
      · exact ih (fun x hx => hdb x (List.mem_cons_of_mem q hx)) p hp

/-- `String(error)` of a JS `Error` object is never the empty string. -/
theorem jsString_ne_empty (e : JsError) : jsString e ≠ "" := by
  intro h
  have hl := congrArg String.length h
  rw [jsString, String.length_append,
    show ("Error: " : String).length = 7 from rfl,
    show ("" : String).length = 0 from rfl] at hl
  omega

/-- Attempt counting distributes over trace concatenation. -/
theorem attemptCount_append (a b : List Event) :
    attemptCount (a ++ b) = attemptCount a + attemptCount b := by
  simp [attemptCount, List.filter_append]

/-- Sleep extraction distributes over trace concatenation. -/
theorem sleeps_append (a b : List Event) :
    sleeps (a ++ b) = sleeps a ++ sleeps b := by
  simp [sleeps, List.filterMap_append]

/-- `put` keeps a key's record count at one. -/
theorem countFor_save_one (db : DB) (r : DeploymentRecord) (lid : String)
    (hlid : r.loanId = lid) (h : countFor db lid = 1) :
    countFor (saveDeployment db r) lid = 1 := by
  subst hlid
  rw [countFor_save, h]
  simp

/-- `put` of a fresh key creates exactly one record for it. -/
theorem countFor_save_zero (db : DB) (r : DeploymentRecord) (lid : String)
    (hlid : r.loanId = lid) (h : countFor db lid = 0) :
    countFor (saveDeployment db r) lid = 1 := by
  subst hlid
  rw [countFor_save, h]
  simp

/-! ### Single-attempt (`processDeployment`) lemmas -/

/-- The attempt's success-or-failure result depends only on the
dependency environment. -/
theorem processDeployment_fst (env : AttemptEnv) (now : Nat) (db : DB)
    (d : DeploymentRecord) :
    (processDeployment env now db d).1 = attemptResult env := by
  rw [processDeployment, attemptResult]
  cases env.fetchBinary with
  | error e => rfl
  | ok bytes =>
    by_cases hv : (validateBinary bytes).valid = false
    · simp [hv]
    · simp only [hv, if_false]
      cases env.storeWrite with
      | error e => rfl
      | ok u =>
        cases env.deployProgram with
        | error e => rfl
        | ok t => cases env.setDeployedProgram <;> rfl

/-- An attempt never changes the record's `loanId`. -/
theorem processDeployment_loanId (env : AttemptEnv) (now : Nat) (db : DB)
    (d : DeploymentRecord) :
    (processDeployment env now db d).2.2.1.loanId = d.loanId := by
  rw [processDeployment]
  cases env.fetchBinary with
  | error e => rfl
  | ok bytes =>
    by_cases hv : (validateBinary bytes).valid = false
    · simp [hv]
    · simp only [hv, if_false]
      cases env.storeWrite with
      | error e => rfl
      | ok u =>
        cases env.deployProgram with
        | error e => rfl
        | ok t => cases env.setDeployedProgram <;> rfl

/-- Each `processDeployment` run is exactly one deployment attempt. -/
theorem processDeployment_attemptCount (env : AttemptEnv) (now : Nat)
    (db : DB) (d : DeploymentRecord) :
    attemptCount (processDeployment env now db d).2.2.2 = 1 := by
  rw [processDeployment]
  cases env.fetchBinary with
  | error e => rfl
  | ok bytes =>
    by_cases hv : (validateBinary bytes).valid = false
    · simp [hv, attemptCount]
    · simp only [hv, if_false]
      cases env.storeWrite with
      | error e => rfl
      | ok u =>
        cases env.deployProgram with
        | error e => rfl
        | ok t => cases env.setDeployedProgram <;> rfl

/-- A single attempt performs no backoff sleep. -/
theorem processDeployment_sleeps (env : AttemptEnv) (now : Nat) (db : DB)
    (d : DeploymentRecord) :
    sleeps (processDeployment env now db d).2.2.2 = [] := by
  rw [processDeployment]
  cases env.fetchBinary with
  | error e => rfl
  | ok bytes =>
    by_cases hv : (validateBinary bytes).valid = false
    · simp [hv, sleeps]
    · simp only [hv, if_false]
      cases env.storeWrite with
      | error e => rfl
      | ok u =>
        cases env.deployProgram with
        | error e => rfl
        | ok t => cases env.setDeployedProgram <;> rfl

/-- A successful attempt ends with the record `deployed` and persisted
under its loanId. -/
theorem processDeployment_ok (env : AttemptEnv) (now : Nat) (db : DB)
    (d : DeploymentRecord) (u : Unit)
    (h : attemptResult env = Except.ok u) :
    (processDeployment env now db d).2.2.1.status = Status.deployed ∧
    getDeployment (processDeployment env now db d).2.1 d.loanId =
      some (processDeployment env now db d).2.2.1 := by
  rw [attemptResult] at h
  rw [processDeployment]
  cases hfb : env.fetchBinary with
  | error e => rw [hfb] at h; simp at h
  | ok bytes =>
    rw [hfb] at h
    by_cases hv : (validateBinary bytes).valid = false
    · simp [hv] at h
    · simp only [hv, if_false] at h ⊢
      cases hsw : env.storeWrite with
      | error e => rw [hsw] at h; simp at h
      | ok u' =>
        rw [hsw] at h
        cases hdp : env.deployProgram with
        | error e => rw [hdp] at h; simp at h
        | ok t =>
          rw [hdp] at h
          cases hds : env.setDeployedProgram with
          | error e => rw [hds] at h; simp at h
          | ok setTx =>
            exact ⟨rfl, getDeployment_save_self _ _⟩

/-- An attempt keeps the key's record count at one. -/
theorem processDeployment_countFor (env : AttemptEnv) (now : Nat) (db : DB)
    (d : DeploymentRecord) (h : countFor db d.loanId = 1) :
    countFor (processDeployment env now db d).2.1 d.loanId = 1 := by
  rw [processDeployment]
  cases env.fetchBinary with
  | error e => apply countFor_save_one <;> first | rfl | exact h
  | ok bytes =>
    by_cases hv : (validateBinary bytes).valid = false
    · simp only [hv, if_true]
      apply countFor_save_one <;> first | rfl | exact h
    · simp only [hv, if_false]
      cases env.storeWrite with
      | error e => apply countFor_save_one <;> first | rfl | exact h
      | ok u =>
        cases env.deployProgram with
        | error e => apply countFor_save_one <;> first | rfl | exact h
        | ok t =>
          cases env.setDeployedProgram with
          | error e => apply countFor_save_one <;> first | rfl | exact h
          | ok setTx =>
            apply countFor_save_one
            · rfl
            · apply countFor_save_one <;> first | rfl | exact h

/-- An attempt preserves the C5 store invariant: it persists a
`deploying` snapshot (unconstrained by the invariant) and, on success,
a `deployed` record whose `programId` and both signatures were just
assigned. -/
theorem processDeployment_dbOk (env : AttemptEnv) (now : Nat) (db : DB)
    (d : DeploymentRecord) (hdb : dbOk db) :
    dbOk (processDeployment env now db d).2.1 := by
  have hdeploying :
      recordOk { d with status := Status.deploying, updatedAt := now } := by
    constructor <;> intro h <;> cases h
  rw [processDeployment]
  cases env.fetchBinary with
  | error e => exact dbOk_save _ _ hdb hdeploying
  | ok bytes =>
    by_cases hv : (validateBinary bytes).valid = false
    · simpa [hv] using dbOk_save _ _ hdb hdeploying
    · simp only [hv, if_false]
      cases env.storeWrite with
      | error e => exact dbOk_save _ _ hdb hdeploying
      | ok u =>
        cases env.deployProgram with
        | error e => exact dbOk_save _ _ hdb hdeploying
        | ok t =>
          cases env.setDeployedProgram with
          | error e => exact dbOk_save _ _ hdb hdeploying
          | ok setTx =>
            refine dbOk_save _ _ (dbOk_save _ _ hdb hdeploying) ?_
            exact ⟨fun _ => by simp, fun h => by cases h⟩

/-! ### Retry-loop (`retryGo`) lemmas -/

/-- The retry loop makes at most `fuel` attempts. -/
theorem retryGo_attemptCount_le (cfg : Config) (env : Nat → AttemptEnv)
    (now : Nat) :
    ∀ (fuel attempts : Nat) (db : DB) (d : DeploymentRecord),
    attemptCount (retryGo cfg env now fuel attempts db d).2.2 ≤ fuel := by
  intro fuel
  induction fuel with
  | zero => intro attempts db d; simp [retryGo, attemptCount]
  | succ fuel ih =>
    intro attempts db d
    rw [retryGo]
    rcases hpd : processDeployment (env attempts) now db d with ⟨res, db', d', tr'⟩
    have hat : attemptCount tr' = 1 := by
      have := processDeployment_attemptCount (env attempts) now db d
      rw [hpd] at this
      exact this
    cases res with
    | ok u =>
      dsimp only
      omega
    | error e =>
      by_cases hge : attempts + 1 ≥ cfg.maxRetries
      · dsimp only
        rw [if_pos hge, attemptCount_append, hat]
        simp [attemptCount]
      · dsimp only
        rw [if_neg hge, attemptCount_append, attemptCount_append, hat]
        have h0 : attemptCount [Event.sleep (cfg.retryDelayMs * 2 ^ (attempts + 1 - 1))] = 0 := rfl
        rw [h0]
        have := ih (attempts + 1) db' d'
        omega

/-- The retry loop never changes the record's `loanId`. -/
theorem retryGo_loanId (cfg : Config) (env : Nat → AttemptEnv) (now : Nat) :
    ∀ (fuel attempts : Nat) (db : DB) (d : DeploymentRecord),
    (retryGo cfg env now fuel attempts db d).2.1.loanId = d.loanId := by
  intro fuel
  induction fuel with
  | zero => intro attempts db d; rfl
  | succ fuel ih =>
    intro attempts db d
    rw [retryGo]
    rcases hpd : processDeployment (env attempts) now db d with ⟨res, db', d', tr'⟩
    have hd' : d'.loanId = d.loanId := by
      have := processDeployment_loanId (env attempts) now db d
      rw [hpd] at this
      exact this
    cases res with
    | ok u => exact hd'
    | error e =>
      by_cases hge : attempts + 1 ≥ cfg.maxRetries
      · dsimp only
        rw [if_pos hge]
        exact hd'
      · dsimp only
        rw [if_neg hge]
        rw [ih (attempts + 1) db' d']
        exact hd'

/-- The retry loop keeps the key's record count at one. -/
theorem retryGo_countFor (cfg : Config) (env : Nat → AttemptEnv) (now : Nat) :
    ∀ (fuel attempts : Nat) (db : DB) (d : DeploymentRecord) (lid : String),
    d.loanId = lid → countFor db lid = 1 →
    countFor (retryGo cfg env now fuel attempts db d).1 lid = 1 := by
  intro fuel
  induction fuel with
  | zero => intro attempts db d lid _ h; exact h
  | succ fuel ih =>
    intro attempts db d lid hlid h
    rw [retryGo]
    rcases hpd : processDeployment (env attempts) now db d with ⟨res, db', d', tr'⟩
    have hd' : d'.loanId = lid := by
      have := processDeployment_loanId (env attempts) now db d
      rw [hpd] at this
      rw [this, hlid]
    have hc : countFor db' lid = 1 := by
      have := processDeployment_countFor (env attempts) now db d (hlid ▸ h)
      rw [hpd] at this
      rw [← hlid]
      exact this
    cases res with
    | ok u => exact hc
    | error e =>
      by_cases hge : attempts + 1 ≥ cfg.maxRetries
      · dsimp only
        rw [if_pos hge]
        apply countFor_save_one <;> first | exact hd' | exact hc
      · dsimp only
        rw [if_neg hge]
        exact ih (attempts + 1) db' d' lid hd' hc

/-- The retry loop preserves the C5 store invariant (the only record it
persists itself is a `failed` one). -/
theorem retryGo_dbOk (cfg : Config) (env : Nat → AttemptEnv) (now : Nat) :
    ∀ (fuel attempts : Nat) (db : DB) (d : DeploymentRecord),
    dbOk db → dbOk (retryGo cfg env now fuel attempts db d).1 := by
  intro fuel
  induction fuel with
  | zero => intro attempts db d h; exact h
  | succ fuel ih =>
    intro attempts db d hdb
    rw [retryGo]
    rcases hpd : processDeployment (env attempts) now db d with ⟨res, db', d', tr'⟩
    have hdb' : dbOk db' := by
      have := processDeployment_dbOk (env attempts) now db d hdb
      rw [hpd] at this
      exact this
    cases res with
    | ok u => exact hdb'
    | error e =>
      by_cases hge : attempts + 1 ≥ cfg.maxRetries
      · dsimp only
        rw [if_pos hge]
        exact dbOk_save _ _ hdb' ⟨(fun h => by cases h), (fun h => by cases h)⟩
      · dsimp only
        rw [if_neg hge]
        exact ih (attempts + 1) db' d' hdb'

/-- Behaviour of the retry loop when every attempt before the last one
fails and the attempt made at counter value `maxRetries - 1` succeeds:
the record ends `deployed`, one backoff sleep of
`retryDelayMs * 2 ^ i` follows the failed attempt at counter `i`, and
every remaining attempt is made. -/
theorem retryGo_success (cfg : Config) (env : Nat → AttemptEnv) (now : Nat)
    (hfail : ∀ i, i + 1 < cfg.maxRetries → ∀ u, attemptResult (env i) ≠ Except.ok u)
    (hsucc : attemptResult (env (cfg.maxRetries - 1)) = Except.ok ()) :
    ∀ (fuel attempts : Nat) (db : DB) (d : DeploymentRecord),
    attempts + fuel = cfg.maxRetries → 1 ≤ fuel →
    (retryGo cfg env now fuel attempts db d).2.1.status = Status.deployed ∧
    sleeps (retryGo cfg env now fuel attempts db d).2.2 =
      (List.range' attempts (cfg.maxRetries - 1 - attempts)).map
        (fun i => cfg.retryDelayMs * 2 ^ i) ∧
    attemptCount (retryGo cfg env now fuel attempts db d).2.2 =
      cfg.maxRetries - attempts := by
  intro fuel
  induction fuel with
  | zero => intro attempts db d hsum h1; exact absurd h1 (by omega)
  | succ fuel ih =>
    intro attempts db d hsum h1
    rw [retryGo]
    rcases hpd : processDeployment (env attempts) now db d with ⟨res, db', d', tr'⟩
    have hres : res = attemptResult (env attempts) := by
      have := processDeployment_fst (env attempts) now db d
      rw [hpd] at this
      exact this
    have hsl : sleeps tr' = [] := by
      have := processDeployment_sleeps (env attempts) now db d
      rw [hpd] at this
      exact this
    have hat : attemptCount tr' = 1 := by
      have := processDeployment_attemptCount (env attempts) now db d
      rw [hpd] at this
      exact this
    by_cases hlast : attempts = cfg.maxRetries - 1
    · have hres_ok : res = Except.ok () := by
        rw [hres, hlast]
        exact hsucc
      subst hres_ok
      dsimp only
      refine ⟨?_, ?_, ?_⟩
      · have := (processDeployment_ok (env attempts) now db d ()
          (by rw [← hlast] at hsucc; exact hsucc)).1
        rw [hpd] at this
        exact this
      · rw [hsl, show cfg.maxRetries - 1 - attempts = 0 by omega]
        rfl
      · rw [hat]
        omega
    · have hlt : attempts + 1 < cfg.maxRetries := by omega
      have hres_err : ∀ u, res ≠ Except.ok u := by
        rw [hres]
        exact hfail attempts hlt
      cases res with
      | ok u => exact absurd rfl (hres_err u)
      | error e =>
        dsimp only
        rw [if_neg (by omega : ¬ attempts + 1 ≥ cfg.maxRetries)]
        obtain ⟨hst', hsl', hac'⟩ := ih (attempts + 1) db' d' (by omega) (by omega)
        refine ⟨hst', ?_, ?_⟩
        · rw [sleeps_append, sleeps_append, hsl, hsl']
          have hrange : cfg.maxRetries - 1 - attempts =
              (cfg.maxRetries - 1 - (attempts + 1)) + 1 := by omega
          rw [hrange]
          show [] ++ ([cfg.retryDelayMs * 2 ^ (attempts + 1 - 1)] ++ _) = _
          rw [show List.range' attempts ((cfg.maxRetries - 1 - (attempts + 1)) + 1) =
            attempts :: List.range' (attempts + 1) (cfg.maxRetries - 1 - (attempts + 1))
            from rfl]
          simp
        · rw [attemptCount_append, attemptCount_append, hat,
            show attemptCount [Event.sleep (cfg.retryDelayMs * 2 ^ (attempts + 1 - 1))] = 0
              from rfl, hac']
          omega

/-- Behaviour of the retry loop when every attempt fails: the record
ends `failed` with the thrown error recorded, every remaining attempt
is made, and the failed record is the one persisted for the loan. -/
theorem retryGo_exhaust (cfg : Config) (env : Nat → AttemptEnv) (now : Nat)
    (hfail : ∀ i, ∃ e, attemptResult (env i) = Except.error e) :
    ∀ (fuel attempts : Nat) (db : DB) (d : DeploymentRecord),
    attempts + fuel = cfg.maxRetries → 1 ≤ fuel →
    (retryGo cfg env now fuel attempts db d).2.1.status = Status.failed ∧
    (∃ e : JsError,
      (retryGo cfg env now fuel attempts db d).2.1.error = some (jsString e)) ∧
    attemptCount (retryGo cfg env now fuel attempts db d).2.2 = fuel ∧
    getDeployment (retryGo cfg env now fuel attempts db d).1 d.loanId =
      some (retryGo cfg env now fuel attempts db d).2.1 := by
  intro fuel
  induction fuel with
  | zero => intro attempts db d hsum h1; exact absurd h1 (by omega)
  | succ fuel ih =>
    intro attempts db d hsum h1
    rw [retryGo]
    rcases hpd : processDeployment (env attempts) now db d with ⟨res, db', d', tr'⟩
    have hd' : d'.loanId = d.loanId := by
      have := processDeployment_loanId (env attempts) now db d
      rw [hpd] at this
      exact this
    have hat : attemptCount tr' = 1 := by
      have := processDeployment_attemptCount (env attempts) now db d
      rw [hpd] at this
      exact this
    obtain ⟨e, he⟩ := hfail attempts
    have hres : res = Except.error e := by
      have h2 := processDeployment_fst (env attempts) now db d
      rw [hpd] at h2
      exact h2.trans he
    subst hres
    dsimp only
    by_cases hfu : fuel = 0
    · subst hfu
      rw [if_pos (by omega : attempts + 1 ≥ cfg.maxRetries)]
      refine ⟨rfl, ⟨e, rfl⟩, ?_, ?_⟩
      · rw [attemptCount_append, hat]
        rfl
      · apply getDeployment_save_self_key
        exact hd'
    · rw [if_neg (by omega : ¬ attempts + 1 ≥ cfg.maxRetries)]
      obtain ⟨hst', herr', hac', hget'⟩ := ih (attempts + 1) db' d' (by omega) (by omega)
      refine ⟨hst', herr', ?_, ?_⟩
      · rw [attemptCount_append, attemptCount_append, hat,
          show attemptCount [Event.sleep (cfg.retryDelayMs * 2 ^ (attempts + 1 - 1))] = 0
            from rfl, hac']
        omega
      · rw [← hd']
        exact hget'

/-! ### Claim theorems over the orchestrator -/

/-- C2: the retry loop makes at most `maxRetries` attempts, sleeping
`retryDelayMs * 2 ^ (attempt - 1)` between consecutive attempts; when
the dependencies fail exactly `maxRetries - 1` times and then succeed,
the final record status is `deployed` and exactly `maxRetries - 1`
backoff delays occur, each (at least) double the previous. -/
theorem processDeploymentWithRetries_backoff (cfg : Config)
    (env : Nat → AttemptEnv) (now : Nat) (db : DB) (d : DeploymentRecord)
    (hm : 1 ≤ cfg.maxRetries)
    (hfail : ∀ i, i + 1 < cfg.maxRetries →
      ∀ u, attemptResult (env i) ≠ Except.ok u)
    (hsucc : attemptResult (env (cfg.maxRetries - 1)) = Except.ok ()) :
    (∀ (env' : Nat → AttemptEnv) (db' : DB) (d' : DeploymentRecord),
      attemptCount (processDeploymentWithRetries cfg env' now db' d').2.2 ≤
        cfg.maxRetries) ∧
    (processDeploymentWithRetries cfg env now db d).2.1.status = Status.deployed ∧
    sleeps (processDeploymentWithRetries cfg env now db d).2.2 =
      (List.range (cfg.maxRetries - 1)).map (fun i => cfg.retryDelayMs * 2 ^ i) ∧
    (sleeps (processDeploymentWithRetries cfg env now db d).2.2).length =
      cfg.maxRetries - 1 ∧
    List.Chain' (fun a b => 2 * a ≤ b)
      (sleeps (processDeploymentWithRetries cfg env now db d).2.2) := by
  obtain ⟨h1, h2, _⟩ :=
    retryGo_success cfg env now hfail hsucc cfg.maxRetries 0 db d (by omega) hm
  have hsleeps : sleeps (processDeploymentWithRetries cfg env now db d).2.2 =
      (List.range (cfg.maxRetries - 1)).map (fun i => cfg.retryDelayMs * 2 ^ i) := by
    rw [processDeploymentWithRetries, h2, List.range_eq_range']
    rfl
  refine ⟨?_, h1, hsleeps, ?_, ?_⟩
  · intro env' db' d'
    exact retryGo_attemptCount_le cfg env' now cfg.maxRetries 0 db' d'
  · rw [hsleeps]
    simp
  · rw [hsleeps, List.chain'_map]
    cases hk : cfg.maxRetries - 1 with
    | zero => simp
    | succ n =>
      rw [List.chain'_range_succ]
      intro m _
      exact Nat.le_of_eq (by rw [Nat.succ_eq_add_one, pow_succ]; ring)

/-- C2 witness: `maxRetries = 3`, dependencies failing twice then
succeeding; conclusions specialised through
`processDeploymentWithRetries_backoff`. -/
theorem processDeploymentWithRetries_backoff_witness :
    (processDeploymentWithRetries cfgW envFailTwiceW 0 [] recPendingW).2.1.status =
      Status.deployed ∧
    sleeps (processDeploymentWithRetries cfgW envFailTwiceW 0 [] recPendingW).2.2 =
      (List.range (cfgW.maxRetries - 1)).map (fun i => cfgW.retryDelayMs * 2 ^ i) := by
  have h := processDeploymentWithRetries_backoff cfgW envFailTwiceW 0 [] recPendingW
    (by decide)
    (by
      intro i hi u
      cases u
      have h2 : i < 2 := by
        simp [cfgW] at hi
        omega
      interval_cases i <;> exact fun hc => Except.noConfusion hc)
    rfl
  exact ⟨h.2.1, h.2.2.1⟩

/-- C3: with dependencies that always fail, after exactly `maxRetries`
attempts the persisted record is `failed` with a non-empty `error`,
and the loop terminates (no further attempt occurs within this
triggering event's handling). -/
theorem processDeploymentWithRetries_exhaustion (cfg : Config)
    (env : Nat → AttemptEnv) (now : Nat) (db : DB) (d : DeploymentRecord)
    (hm : 1 ≤ cfg.maxRetries)
    (hfail : ∀ i, ∃ e, attemptResult (env i) = Except.error e) :
    (processDeploymentWithRetries cfg env now db d).2.1.status = Status.failed ∧
    getDeployment (processDeploymentWithRetries cfg env now db d).1 d.loanId =
      some (processDeploymentWithRetries cfg env now db d).2.1 ∧
    (∃ s, (processDeploymentWithRetries cfg env now db d).2.1.error = some s ∧
      s ≠ "") ∧
    attemptCount (processDeploymentWithRetries cfg env now db d).2.2 =
      cfg.maxRetries := by
  obtain ⟨h1, ⟨e, he⟩, h3, h4⟩ :=
    retryGo_exhaust cfg env now hfail cfg.maxRetries 0 db d (by omega) hm
  exact ⟨h1, h4, ⟨jsString e, he, jsString_ne_empty e⟩, h3⟩

/-- C3 witness: a binary fetch that always throws, with the default
`maxRetries = 3`. -/
theorem processDeploymentWithRetries_exhaustion_witness :
    (processDeploymentWithRetries cfgW (fun _ => envFailW) 0 [] recPendingW).2.1.status =
      Status.failed ∧
    attemptCount
      (processDeploymentWithRetries cfgW (fun _ => envFailW) 0 [] recPendingW).2.2 =
      cfgW.maxRetries := by
  have h := processDeploymentWithRetries_exhaustion cfgW (fun _ => envFailW) 0 []
    recPendingW (by decide) (fun i => ⟨⟨"fetch refused"⟩, rfl⟩)
  exact ⟨h.1, h.2.2.2⟩

/-- C1: a `loanRequested` event observed while a record for that loanId
exists with status other than `failed` is a no-op (no state change, no
events, hence no deployment attempt); consequently two events in a row
(without intervening failure) leave exactly one record for the loanId
and only the first event's attempt sequence. -/
theorem handleLoanRequested_idempotent (cfg : Config)
    (env env2 : Nat → AttemptEnv) (now now2 : Nat) (ev : LoanRequestedEv) :
    (∀ (db : DB) (d₀ : DeploymentRecord),
      getDeployment db ev.loanId = some d₀ → d₀.status ≠ Status.failed →
      handleLoanRequested cfg env now ev db = (db, [])) ∧
    (∀ db₀ : DB, getDeployment db₀ ev.loanId = none →
      (∀ d₁, getDeployment (handleLoanRequested cfg env now ev db₀).1 ev.loanId =
        some d₁ → d₁.status ≠ Status.failed) →
      countFor (handleLoanRequested cfg env now ev db₀).1 ev.loanId = 1 ∧
      handleLoanRequested cfg env2 now2 ev (handleLoanRequested cfg env now ev db₀).1 =
        ((handleLoanRequested cfg env now ev db₀).1, [])) := by
  have noop : ∀ (db : DB) (d₀ : DeploymentRecord) (envx : Nat → AttemptEnv)
      (nowx : Nat),
      getDeployment db ev.loanId = some d₀ → d₀.status ≠ Status.failed →
      handleLoanRequested cfg envx nowx ev db = (db, []) := by
    intro db d₀ envx nowx hget hst
    rw [handleLoanRequested, hget]
    dsimp only
    rw [if_pos hst]
  refine ⟨fun db d₀ => noop db d₀ env now, ?_⟩
  intro db₀ hnone hnf
  have hcount : countFor (handleLoanRequested cfg env now ev db₀).1 ev.loanId = 1 := by
    rw [handleLoanRequested, hnone]
    dsimp only
    rw [startDeployment, processDeploymentWithRetries]
    dsimp only
    apply retryGo_countFor
    · rfl
    · apply countFor_save_zero
      · rfl
      · exact countFor_eq_zero_of_none db₀ ev.loanId hnone
  obtain ⟨d₁, hd₁⟩ := getDeployment_isSome_of_countFor _ _ (by rw [hcount]; omega)
  exact ⟨hcount, noop _ d₁ env2 now2 hd₁ (hnf d₁ hd₁)⟩

/-- C1 witness: a fresh loan handled twice with all dependencies
succeeding; discharged through `handleLoanRequested_idempotent`. -/
theorem handleLoanRequested_idempotent_witness :
    countFor (handleLoanRequested cfgW (fun _ => envOkW) 0 evW []).1 evW.loanId = 1 ∧
    handleLoanRequested cfgW (fun _ => envOkW) 1 evW
        (handleLoanRequested cfgW (fun _ => envOkW) 0 evW []).1 =
      ((handleLoanRequested cfgW (fun _ => envOkW) 0 evW []).1, []) := by
  refine (handleLoanRequested_idempotent cfgW (fun _ => envOkW) (fun _ => envOkW)
    0 1 evW).2 [] rfl ?_
  intro d₁ h
  have hall : ((getDeployment (handleLoanRequested cfgW (fun _ => envOkW) 0 evW []).1
      evW.loanId).all fun r => r.status != Status.failed) = true := by decide
  rw [h] at hall
  simpa using hall

/-- C4: `processRecovery` is a no-op — no record written, no chain call
made — whenever the record for the loanId is absent or has any status
other than exactly `deployed`. -/
theorem processRecovery_noop (renv : RecoveryEnv) (now : Nat) (lid : String)
    (db : DB)
    (h : ∀ d, getDeployment db lid = some d → d.status ≠ Status.deployed) :
    processRecovery renv now lid db = (db, []) := by
  rw [processRecovery]
  cases hget : getDeployment db lid with
  | none => rfl
  | some d =>
    dsimp only
    rw [if_pos (h d hget)]

/-- C4 witness: a store holding only a `failed` record. -/
theorem processRecovery_noop_witness :
    processRecovery renvW 5 "9" [("9", recFailedW)] = ([("9", recFailedW)], []) := by
  refine processRecovery_noop renvW 5 "9" _ ?_
  intro d hd
  rw [show getDeployment [("9", recFailedW)] "9" = some recFailedW from rfl] at hd
  cases hd
  decide

/-- C5: the orchestrator's entry points (`handleLoanRequested`, and
`processRecovery`, to which `handleLoanRecovered` and
`handleLoanExpired` delegate) preserve the invariant that every
persisted `deployed` record has `programId`, `deployTxSignature` and
`setDeployedTxSignature` non-null, and every persisted `recovered`
record has `recoveryTxSignature` non-null. -/
theorem orchestrator_preserves_invariants (cfg : Config)
    (env : Nat → AttemptEnv) (renv : RecoveryEnv) (now : Nat)
    (ev : LoanRequestedEv) (lid : String) (db : DB) (hdb : dbOk db) :
    dbOk (handleLoanRequested cfg env now ev db).1 ∧
    dbOk (processRecovery renv now lid db).1 := by
  have hstart : dbOk (startDeployment cfg env now ev db).1 := by
    rw [startDeployment, processDeploymentWithRetries]
    dsimp only
    apply retryGo_dbOk
    exact dbOk_save _ _ hdb ⟨(fun h => by cases h), (fun h => by cases h)⟩
  constructor
  · rw [handleLoanRequested]
    cases hget : getDeployment db ev.loanId with
    | none => exact hstart
    | some d₀ =>
      dsimp only
      by_cases hst : d₀.status ≠ Status.failed
      · rw [if_pos hst]
        exact hdb
      · rw [if_neg hst]
        exact hstart
  · rw [processRecovery]
    cases hget : getDeployment db lid with
    | none => exact hdb
    | some d =>
      dsimp only
      by_cases hst : d.status ≠ Status.deployed
      · rw [if_pos hst]
        exact hdb
      · rw [if_neg hst]
        cases hpid : d.programId with
        | none =>
          dsimp only
          exact dbOk_save _ _ hdb ⟨(fun h => by cases h), (fun h => by cases h)⟩
        | some pid =>
          dsimp only
          cases renv.closeProgram with
          | error e =>
            dsimp only
            exact dbOk_save _ _
              (dbOk_save _ _ hdb ⟨(fun h => by cases h), (fun h => by cases h)⟩)
              ⟨(fun h => by cases h), (fun h => by cases h)⟩
          | ok pr =>
            rcases pr with ⟨reclaimedSol, signature⟩
            dsimp only
            cases renv.returnReclaimedSol with
            | error e =>
              dsimp only
              exact dbOk_save _ _
                (dbOk_save _ _ hdb ⟨(fun h => by cases h), (fun h => by cases h)⟩)
                ⟨(fun h => by cases h), (fun h => by cases h)⟩
            | ok tx =>
              dsimp only
              exact dbOk_save _ _
                (dbOk_save _ _ hdb ⟨(fun h => by cases h), (fun h => by cases h)⟩)
                ⟨(fun h => by cases h), (fun _ => by simp)⟩

/-- C5 witness: both entry points applied to the empty store. -/
theorem orchestrator_preserves_invariants_witness :
    dbOk (handleLoanRequested cfgW (fun _ => envOkW) 0 evW []).1 ∧
    dbOk (processRecovery renvW 0 "1" []).1 :=
  orchestrator_preserves_invariants cfgW (fun _ => envOkW) renvW 0 evW "1" []
    (fun p hp => absurd hp (List.not_mem_nil p))

/-- C10: when the record is `deployed` but carries no `programId`,
`processRecovery` persists `recovering` and stops: no close or
return-to-vault chain call, no error raised or recorded, and no further
status transition — the record stays `recovering`. -/
theorem processRecovery_missing_programId (renv : RecoveryEnv) (now : Nat)
    (lid : String) (db : DB) (d : DeploymentRecord)
    (hget : getDeployment db lid = some d)
    (hkey : d.loanId = lid)
    (hst : d.status = Status.deployed)
    (hpid : d.programId = none) :
    processRecovery renv now lid db =
      (saveDeployment db { d with status := Status.recovering, updatedAt := now },
        [Event.save { d with status := Status.recovering, updatedAt := now }]) ∧
    getDeployment (processRecovery renv now lid db).1 lid =
      some { d with status := Status.recovering, updatedAt := now } := by
  have heq : processRecovery renv now lid db =
      (saveDeployment db { d with status := Status.recovering, updatedAt := now },
        [Event.save { d with status := Status.recovering, updatedAt := now }]) := by
    rw [processRecovery, hget]
    dsimp only
    rw [if_neg (by simp [hst])]
    rw [hpid]
  refine ⟨heq, ?_⟩
  rw [heq]
  apply getDeployment_save_self_key
  exact hkey

/-- C10 witness: a concrete `deployed` record with `programId` absent. -/
theorem processRecovery_missing_programId_witness :
    processRecovery renvW 3 "7" [("7", recNoPidW)] =
      (saveDeployment [("7", recNoPidW)]
          { recNoPidW with status := Status.recovering, updatedAt := 3 },
        [Event.save { recNoPidW with status := Status.recovering, updatedAt := 3 }]) :=
  (processRecovery_missing_programId renvW 3 "7" [("7", recNoPidW)] recNoPidW
    rfl rfl rfl rfl).1

end Solignition
